import Mathlib

/-!
Verification development for the Aethelred knowledge-foundry repository.

The definitions below are a shallow embedding of the coordination core of
the repository: the SQLite work-queue store (`core/database.py`), the
knowledge-base admission control (`memory/knowledge_base.py`), the two
stage poll loops (`services/ingestor_service.py`,
`services/processor_service.py`) and the process supervisor
(`launcher.py`).  SQL statements are translated by their SQLite
semantics: `UPDATE ... WHERE id = ?` maps every row with the given id,
`INSERT OR IGNORE` on the unique `url` column inserts only when the url
is absent, and `ORDER BY ... LIMIT 1` returns a row that is minimal with
respect to the ordering named in the query (and only that ordering).
Timestamps (`CURRENT_TIMESTAMP`) are modelled by an explicit `now : Nat`
parameter; external collaborators (HTTP fetch, the LLM, the embedding
model, the vector search) are parameters of the functions that call them.
-/

namespace Aethelred

/-- A row of the `crawl_targets` table (see the schema in
`DatabaseManager.init_db`): `id INTEGER PRIMARY KEY AUTOINCREMENT`,
`url TEXT UNIQUE NOT NULL`, `status TEXT NOT NULL DEFAULT 'pending'`,
`last_crawled_timestamp DATETIME` (nullable). -/
structure CrawlTarget where
  id : Nat
  url : String
  status : String
  last_crawled_timestamp : Option Nat
deriving Repr, DecidableEq

/-- A row of the `raw_content` table: `id INTEGER PRIMARY KEY AUTOINCREMENT`,
`target_id INTEGER` (nullable foreign key), `url`, `raw_text`,
`status TEXT NOT NULL DEFAULT 'pending'`,
`creation_timestamp DATETIME DEFAULT CURRENT_TIMESTAMP`. -/
structure RawContent where
  id : Nat
  target_id : Option Nat
  url : String
  raw_text : String
  status : String
  creation_timestamp : Nat
deriving Repr, DecidableEq

/-- The state of the SQLite database managed by `DatabaseManager`: the two
tables plus the AUTOINCREMENT counters that produce fresh row ids. -/
structure DbState where
  crawl_targets : List CrawlTarget
  raw_content : List RawContent
  next_target_id : Nat
  next_content_id : Nat
deriving Repr, DecidableEq

/-- Strict lexicographic order on sort keys (triples of naturals). -/
def keyLt : Nat × Nat × Nat → Nat × Nat × Nat → Prop
  | (a1, a2, a3), (b1, b2, b3) =>
      a1 < b1 ∨ (a1 = b1 ∧ (a2 < b2 ∨ (a2 = b2 ∧ a3 < b3)))

/-- Reflexive lexicographic order on sort keys. -/
def keyLe : Nat × Nat × Nat → Nat × Nat × Nat → Prop
  | (a1, a2, a3), (b1, b2, b3) =>
      a1 < b1 ∨ (a1 = b1 ∧ (a2 < b2 ∨ (a2 = b2 ∧ a3 ≤ b3)))

instance (a b : Nat × Nat × Nat) : Decidable (keyLt a b) := by
  unfold keyLt; infer_instance

instance (a b : Nat × Nat × Nat) : Decidable (keyLe a b) := by
  unfold keyLe; infer_instance

theorem keyLe_refl (a : Nat × Nat × Nat) : keyLe a a := by
  obtain ⟨a1, a2, a3⟩ := a
  dsimp only [keyLe]
  omega

theorem keyLe_trans {a b c : Nat × Nat × Nat} (h1 : keyLe a b) (h2 : keyLe b c) :
    keyLe a c := by
  obtain ⟨a1, a2, a3⟩ := a
  obtain ⟨b1, b2, b3⟩ := b
  obtain ⟨c1, c2, c3⟩ := c
  dsimp only [keyLe] at h1 h2 ⊢
  omega

theorem keyLt_le {a b : Nat × Nat × Nat} (h : keyLt a b) : keyLe a b := by
  obtain ⟨a1, a2, a3⟩ := a
  obtain ⟨b1, b2, b3⟩ := b
  simp only [keyLt] at h
  dsimp only [keyLe]
  omega

theorem keyLe_of_not_lt {a b : Nat × Nat × Nat} (h : ¬ keyLt a b) : keyLe b a := by
  obtain ⟨a1, a2, a3⟩ := a
  obtain ⟨b1, b2, b3⟩ := b
  simp only [keyLt] at h
  dsimp only [keyLe]
  omega

/-- One step of scanning for the row minimal in the sort order. -/
def pickMin {α : Type} (key : α → Nat × Nat × Nat) (acc : Option α) (x : α) : Option α :=
  match acc with
  | none => some x
  | some b => if keyLt (key x) (key b) then some x else some b

/-- `ORDER BY key ASC LIMIT 1`: a row of `l` whose key is minimal. -/
def selectMin {α : Type} (key : α → Nat × Nat × Nat) (l : List α) : Option α :=
  l.foldl (pickMin key) none

theorem foldl_pickMin_some {α : Type} (key : α → Nat × Nat × Nat) (l : List α) (b : α) :
    ∃ m, l.foldl (pickMin key) (some b) = some m ∧ (m = b ∨ m ∈ l) ∧
      keyLe (key m) (key b) ∧ ∀ x ∈ l, keyLe (key m) (key x) := by
  induction l generalizing b with
  | nil => exact ⟨b, rfl, Or.inl rfl, keyLe_refl _, by simp⟩
  | cons x xs ih =>
    simp only [List.foldl_cons, pickMin]
    by_cases hlt : keyLt (key x) (key b)
    · simp only [if_pos hlt]
      obtain ⟨m, hm, hmem, hle, hall⟩ := ih x
      refine ⟨m, hm, ?_, ?_, ?_⟩
      · rcases hmem with h | h
        · exact Or.inr (h ▸ List.mem_cons_self x xs)
        · exact Or.inr (List.mem_cons_of_mem x h)
      · exact keyLe_trans hle (keyLt_le hlt)
      · intro y hy
        rcases List.mem_cons.mp hy with h | h
        · exact h ▸ hle
        · exact hall y h
    · simp only [if_neg hlt]
      obtain ⟨m, hm, hmem, hle, hall⟩ := ih b
      refine ⟨m, hm, ?_, hle, ?_⟩
      · rcases hmem with h | h
        · exact Or.inl h
        · exact Or.inr (List.mem_cons_of_mem x h)
      · intro y hy
        rcases List.mem_cons.mp hy with h | h
        · exact h ▸ keyLe_trans hle (keyLe_of_not_lt hlt)
        · exact hall y h

theorem selectMin_spec {α : Type} (key : α → Nat × Nat × Nat) (l : List α) :
    (selectMin key l = none ↔ l = []) ∧
      ∀ m, selectMin key l = some m → m ∈ l ∧ ∀ x ∈ l, keyLe (key m) (key x) := by
  cases l with
  | nil => exact ⟨by simp [selectMin], by simp [selectMin]⟩
  | cons x xs =>
    obtain ⟨m, hm, hmem, hle, hall⟩ := foldl_pickMin_some key xs x
    have hfold : selectMin key (x :: xs) = some m := by
      simpa [selectMin, List.foldl_cons, pickMin] using hm
    constructor
    · constructor
      · intro h; rw [hfold] at h; cases h
      · intro h; cases h
    · intro m' hm'
      rw [hfold] at hm'
      cases hm'
      refine ⟨?_, ?_⟩
      · rcases hmem with h | h
        · exact h ▸ List.mem_cons_self x xs
        · exact List.mem_cons_of_mem x h
      · intro y hy
        rcases List.mem_cons.mp hy with h | h
        · exact h ▸ hle
        · exact hall y h

/-- `DatabaseManager.add_crawl_target(url)`:
`INSERT OR IGNORE INTO crawl_targets (url) VALUES (?)` — since `url` is
UNIQUE, the insert happens only when no row carries the url; a fresh row
gets the next AUTOINCREMENT id, status `'pending'` (column default) and a
NULL `last_crawled_timestamp`. -/
def add_crawl_target (s : DbState) (url : String) : DbState :=
  if s.crawl_targets.any (fun t => t.url == url) then s
  else
    { s with
        crawl_targets :=
          s.crawl_targets ++ [⟨s.next_target_id, url, "pending", none⟩],
        next_target_id := s.next_target_id + 1 }

/-- The value the Python method `add_crawl_target` hands back to its
caller: the method body has no `return`, so the call evaluates to `None`
irrespective of the database state — it never reports the row's id. -/
def add_crawl_target_ret (_s : DbState) (_url : String) : Option Nat :=
  none

/-- Sort key of `ORDER BY last_crawled_timestamp ASC, id ASC` in
`get_next_crawl_target`; under SQLite's ASC ordering a NULL timestamp
sorts before every non-NULL value. -/
def targetKey (t : CrawlTarget) : Nat × Nat × Nat :=
  match t.last_crawled_timestamp with
  | none => (0, 0, t.id)
  | some ts => (1, ts, t.id)

/-- `DatabaseManager.get_next_crawl_target()`:
`SELECT * FROM crawl_targets WHERE status = 'pending'
ORDER BY last_crawled_timestamp ASC, id ASC LIMIT 1`.
The query only reads; it writes no status. -/
def get_next_crawl_target (s : DbState) : Option CrawlTarget :=
  selectMin targetKey (s.crawl_targets.filter (fun t => t.status == "pending"))

/-- `DatabaseManager.update_crawl_target_status(target_id, status)`:
`UPDATE crawl_targets SET status = ?, last_crawled_timestamp =
CURRENT_TIMESTAMP WHERE id = ?`. Every row whose id matches is updated;
when no row matches, the UPDATE affects zero rows and succeeds silently. -/
def update_crawl_target_status (s : DbState) (target_id : Nat) (status : String)
    (now : Nat) : DbState :=
  { s with
      crawl_targets := s.crawl_targets.map fun t =>
        if t.id == target_id then
          { t with status := status, last_crawled_timestamp := some now }
        else t }

/-- The outcome `update_crawl_target_status` reports to its caller: the
`sqlite3` UPDATE raises no error when zero rows match the WHERE clause,
and the method checks no row count, so the call always returns normally
(Python `None`), for absent ids as much as for present ones. -/
def update_crawl_target_status_result (_s : DbState) (_target_id : Nat)
    (_status : String) (_now : Nat) : Except String Unit :=
  Except.ok ()

/-- `DatabaseManager.add_raw_content(target_id, url, raw_text)`: plain
INSERT — a fresh row with the next AUTOINCREMENT id, status `'pending'`
and `creation_timestamp = CURRENT_TIMESTAMP`. No deduplication. -/
def add_raw_content (s : DbState) (target_id : Nat) (url raw_text : String)
    (now : Nat) : DbState :=
  { s with
      raw_content :=
        s.raw_content ++ [⟨s.next_content_id, some target_id, url, raw_text, "pending", now⟩],
      next_content_id := s.next_content_id + 1 }

/-- `DatabaseManager.get_next_raw_content()`:
`SELECT * FROM raw_content WHERE status = 'pending'
ORDER BY creation_timestamp ASC LIMIT 1`.
The ORDER BY names only `creation_timestamp`; SQLite leaves the choice
among rows that tie on it unspecified, so the query is embedded as a
relation: `content_query_ok s r` holds exactly when `r` is a result the
query text permits on state `s`. -/
def content_query_ok (s : DbState) (r : Option RawContent) : Prop :=
  match r with
  | none => ∀ c ∈ s.raw_content, c.status ≠ "pending"
  | some c =>
      c ∈ s.raw_content ∧ c.status = "pending" ∧
        ∀ u ∈ s.raw_content, u.status = "pending" →
          c.creation_timestamp ≤ u.creation_timestamp

instance (s : DbState) (r : Option RawContent) : Decidable (content_query_ok s r) := by
  unfold content_query_ok
  cases r <;> infer_instance

/-- Modelled from the spec: the spec's `claimNextContent` ordering
"by `created_time` then `id`" — the deterministic choice that breaks
timestamp ties by ascending id. Stated for comparison with
`content_query_ok`, the relation the source's SQL actually constrains. -/
def claimNextContent_specLex (s : DbState) : Option RawContent :=
  selectMin (fun c => (0, c.creation_timestamp, c.id))
    (s.raw_content.filter (fun c => c.status == "pending"))

/-- `DatabaseManager.update_raw_content_status(content_id, status)`:
`UPDATE raw_content SET status = ? WHERE id = ?`. -/
def update_raw_content_status (s : DbState) (content_id : Nat) (status : String) :
    DbState :=
  { s with
      raw_content := s.raw_content.map fun c =>
        if c.id == content_id then { c with status := status } else c }

/-- Status of the first `crawl_targets` row carrying the id. -/
def statusOfTarget (s : DbState) (id : Nat) : Option String :=
  (s.crawl_targets.find? (fun t => t.id == id)).map (·.status)

/-- Status of the first `raw_content` row carrying the id. -/
def statusOfContent (s : DbState) (id : Nat) : Option String :=
  (s.raw_content.find? (fun c => c.id == id)).map (·.status)

theorem content_update_find (l : List RawContent) (id : Nat) (st : String)
    (h : ∃ c ∈ l, c.id = id) :
    (((l.map fun c => if c.id == id then { c with status := st } else c).find?
        (fun c => c.id == id)).map (·.status)) = some st := by
  induction l with
  | nil =>
    obtain ⟨c, hc, _⟩ := h
    cases hc
  | cons x xs ih =>
    simp only [List.map_cons]
    by_cases hx : x.id = id
    · rw [List.find?_cons_of_pos _ (by simp [hx])]
      simp [hx]
    · rw [List.find?_cons_of_neg _ (by simp [hx])]
      obtain ⟨c, hc, hcid⟩ := h
      rcases List.mem_cons.mp hc with hh | hh
      · exact absurd (hh ▸ hcid) hx
      · exact ih ⟨c, hh, hcid⟩

theorem target_update_find (l : List CrawlTarget) (id : Nat) (st : String) (now : Nat)
    (h : ∃ t ∈ l, t.id = id) :
    (((l.map fun t =>
          if t.id == id then { t with status := st, last_crawled_timestamp := some now }
          else t).find? (fun t => t.id == id)).map (·.status)) = some st := by
  induction l with
  | nil =>
    obtain ⟨c, hc, _⟩ := h
    cases hc
  | cons x xs ih =>
    simp only [List.map_cons]
    by_cases hx : x.id = id
    · rw [List.find?_cons_of_pos _ (by simp [hx])]
      simp [hx]
    · rw [List.find?_cons_of_neg _ (by simp [hx])]
      obtain ⟨c, hc, hcid⟩ := h
      rcases List.mem_cons.mp hc with hh | hh
      · exact absurd (hh ▸ hcid) hx
      · exact ih ⟨c, hh, hcid⟩

theorem statusOfContent_update_self (s : DbState) (id : Nat) (st : String)
    (h : ∃ c ∈ s.raw_content, c.id = id) :
    statusOfContent (update_raw_content_status s id st) id = some st :=
  content_update_find s.raw_content id st h

theorem statusOfTarget_update_self (s : DbState) (id : Nat) (st : String) (now : Nat)
    (h : ∃ t ∈ s.crawl_targets, t.id = id) :
    statusOfTarget (update_crawl_target_status s id st now) id = some st :=
  target_update_find s.crawl_targets id st now h

/-- A record of the LanceDB `knowledge` table
(`KnowledgeBase.add_knowledge` / `init_kb`): vector, summary text, url,
title, and the entity list joined into one string. Vector components are
rationals standing for the floating-point coordinates. -/
structure KnowledgeRec where
  vector : List ℚ
  text : String
  url : String
  title : String
  entities : String
deriving Repr, DecidableEq

/-- The LanceDB `knowledge` table: its list of records. -/
structure KBTable where
  records : List KnowledgeRec
deriving Repr, DecidableEq

/-- The structured output of `FoundationModel.process_text_chunk`:
`{title, summary, entities}`, plus the `url` key the processor overwrites
before storage. -/
structure ProcessedData where
  title : String
  summary : String
  entities : List String
  url : String
deriving Repr, DecidableEq

/-- The external collaborators of the processor pipeline: the LLM
(`brain.process_text_chunk`), the sentence-transformer embedding
(`model.encode`), LanceDB nearest-neighbour search (`table.search(...)
.limit(1)`), the cosine-similarity kernel of scikit-learn, and the
configured annealing threshold. They are inputs of the embedding because
the repository calls them through libraries it does not define. -/
structure Collab where
  brain : String → String → Option ProcessedData
  encode : String → List ℚ
  search1 : KBTable → List ℚ → Option KnowledgeRec
  cosine : List ℚ → List ℚ → ℚ
  annealing_threshold : ℚ

/-- The default `annealing_threshold` in `DEFAULT_CONFIG`
(`core/config.py`): `0.95`. -/
def default_annealing_threshold : ℚ := 95 / 100

/-- `KnowledgeBase.check_for_contradiction(new_vector)`: search for the
single most similar chunk; when the search yields nothing (or a record
with an empty vector, or raises), return `False` — no existing knowledge
cannot contradict. Otherwise compute the cosine similarity with the
nearest chunk's vector and return `True` exactly when it is strictly
greater than `annealing_threshold`. -/
def check_for_contradiction (env : Collab) (kb : KBTable) (new_vector : List ℚ) :
    Bool :=
  match env.search1 kb new_vector with
  | none => false
  | some nearest =>
      if nearest.vector = [] then false
      else decide (env.cosine new_vector nearest.vector > env.annealing_threshold)

/-- `KnowledgeBase.add_knowledge(processed_data, vector)`: append a record
whose `text` is the summary and whose `entities` are joined with
`", "`. -/
def add_knowledge (kb : KBTable) (pd : ProcessedData) (vector : List ℚ) : KBTable :=
  { records :=
      kb.records ++
        [⟨vector, pd.summary, pd.url, pd.title, String.intercalate ", " pd.entities⟩] }

/-- `KnowledgeBase.init_kb()`: drop the `knowledge` table whatever it
holds (a failed drop of a missing table is swallowed), then create it
afresh seeded with the single sample row used for schema inference —
vector `model.encode("test")`, text `"This is a test chunk."`, url
`"http://example.com"`, title `"Example"`, entities `"example, test"`. -/
def init_kb (env : Collab) (_prior : Option KBTable) : KBTable :=
  { records :=
      [⟨env.encode "test", "This is a test chunk.", "http://example.com",
        "Example", "example, test"⟩] }

/-- `KnowledgeBase.__init__`: connect, load the embedding model, read the
threshold, and set `self.table = self.init_kb()` — construction always
runs the drop-and-recreate of `init_kb`. -/
def knowledgeBase_construct (env : Collab) (prior : Option KBTable) : KBTable :=
  init_kb env prior

/-- `aethelred.initialize_components()`: builds config, DatabaseManager,
KnowledgeBase and FoundationModel; the knowledge table it hands to every
service is the one `KnowledgeBase.__init__` just rebuilt. -/
def init_components_kb (env : Collab) (prior : Option KBTable) : KBTable :=
  knowledgeBase_construct env prior

/-- `ProcessorService.process_chunk(content)` (the no-exception paths):
ask the brain to structure the raw text (`None` → return `False`), force
`processed_data['url'] = content['url']`, embed the summary, and either
discard the chunk as a duplicate (returning `True` with the table
untouched) or add it to the knowledge base (returning `True`). -/
def process_chunk (env : Collab) (kb : KBTable) (content : RawContent) :
    Bool × KBTable :=
  match env.brain content.raw_text content.url with
  | none => (false, kb)
  | some pd0 =>
      let pd := { pd0 with url := content.url }
      let vector := env.encode pd.summary
      if check_for_contradiction env kb vector then (true, kb)
      else (true, add_knowledge kb pd vector)

/-- `ProcessorService.run_sweep()` with the claimed item and the handler
made explicit. The claimed item is `none` when `get_next_raw_content`
found nothing (the sweep just returns). The handler models
`process_chunk`, which may also raise (`Except.error`): the `try` block
marks the item `processed` on `True`, `failed` on `False`, and the
`except` clause marks it `failed` on any exception — the exception stops
inside the sweep. -/
def processor_run_sweep (s : DbState) (kb : KBTable) (claimed : Option RawContent)
    (handler : RawContent → KBTable → Except String (Bool × KBTable)) :
    DbState × KBTable :=
  match claimed with
  | none => (s, kb)
  | some content =>
      match handler content kb with
      | Except.ok (true, kb') => (update_raw_content_status s content.id "processed", kb')
      | Except.ok (false, kb') => (update_raw_content_status s content.id "failed", kb')
      | Except.error _ => (update_raw_content_status s content.id "failed", kb)

/-- The processor's handler when `process_chunk` runs to completion
without raising. -/
def process_chunk_handler (env : Collab) : RawContent → KBTable → Except String (Bool × KBTable) :=
  fun content kb => Except.ok (process_chunk env kb content)

/-- `IngestorService.fetch_url(url)`: the whole body sits in one `try`
whose `except` clauses catch `httpx.HTTPStatusError` and every other
`Exception` and return `None`; a successful attempt returns the extracted
text. `attempt` is the outcome of the HTTP round-trip plus HTML
extraction — `Except.error` when any exception is raised inside the
`try`. -/
def fetch_url (attempt : Except String String) : Option String :=
  match attempt with
  | Except.ok text => some text
  | Except.error _ => none

/-- `IngestorService.run_sweep()` with the claimed target and the fetch
attempt explicit: if no pending target, return; otherwise mark the target
`active`, fetch, and — because Python's `if raw_text:` is falsy for both
`None` and the empty string — enqueue the content and mark the target
`completed` only for non-empty text, marking it `failed` otherwise. -/
def ingestor_run_sweep (s : DbState) (claimed : Option CrawlTarget)
    (attempt : Except String String) (now : Nat) : DbState :=
  match claimed with
  | none => s
  | some target =>
      let s1 := update_crawl_target_status s target.id "active" now
      match fetch_url attempt with
      | some raw_text =>
          if raw_text = "" then update_crawl_target_status s1 target.id "failed" now
          else
            let s2 := add_raw_content s1 target.id target.url raw_text now
            update_crawl_target_status s2 target.id "completed" now
      | none => update_crawl_target_status s1 target.id "failed" now

/-- The state-mutating store operations the services issue against
`DatabaseManager` (the two SELECT queries read only and are therefore not
state transitions). -/
inductive DbOp where
  | addTarget (url : String)
  | updateTarget (id : Nat) (status : String) (now : Nat)
  | addContent (target_id : Nat) (url raw_text : String) (now : Nat)
  | updateContent (id : Nat) (status : String)
deriving Repr, DecidableEq

/-- Effect of one store operation. -/
def applyOp (s : DbState) : DbOp → DbState
  | DbOp.addTarget url => add_crawl_target s url
  | DbOp.updateTarget id status now => update_crawl_target_status s id status now
  | DbOp.addContent tid url text now => add_raw_content s tid url text now
  | DbOp.updateContent id status => update_raw_content_status s id status

/-- Effect of a sequence of store operations. -/
def applyOps (s : DbState) (ops : List DbOp) : DbState :=
  ops.foldl applyOp s

/-- `writesPendingTo id op`: the operation writes status `'pending'` onto
rows with the given target id. The services never issue such an
operation — `IngestorService` writes `'active'`, `'completed'` and
`'failed'`, `ProcessorService` writes `'processed'` and `'failed'`. -/
def writesPendingTo (id : Nat) : DbOp → Prop
  | DbOp.updateTarget i st _ => i = id ∧ st = "pending"
  | _ => False

instance (id : Nat) (op : DbOp) : Decidable (writesPendingTo id op) := by
  unfold writesPendingTo
  cases op <;> infer_instance

/-- Well-formedness the AUTOINCREMENT schema maintains: every stored
target id is below the counter for the next id. -/
def wfTargets (s : DbState) : Prop :=
  ∀ t ∈ s.crawl_targets, t.id < s.next_target_id

instance (s : DbState) : Decidable (wfTargets s) := by
  unfold wfTargets
  infer_instance

theorem wfTargets_applyOp {s : DbState} (h : wfTargets s) (op : DbOp) :
    wfTargets (applyOp s op) := by
  cases op with
  | addTarget url =>
    intro t ht
    simp only [applyOp, add_crawl_target] at ht ⊢
    by_cases hmem : s.crawl_targets.any (fun t => t.url == url)
    · simp only [if_pos hmem] at ht ⊢
      exact h t ht
    · simp only [if_neg hmem] at ht ⊢
      rcases List.mem_append.mp ht with hin | hin
      · exact Nat.lt_succ_of_lt (h t hin)
      · simp only [List.mem_singleton] at hin
        subst hin
        exact Nat.lt_succ_self _
  | updateTarget i st now =>
    intro t ht
    simp only [applyOp, update_crawl_target_status, List.mem_map] at ht ⊢
    obtain ⟨u, hu, hut⟩ := ht
    have hid := h u hu
    by_cases hui : u.id = i
    · simp only [hui, beq_self_eq_true, if_true] at hut
      subst hut
      simpa using hui ▸ hid
    · simp [hui] at hut
      subst hut
      exact hid
  | addContent tid url text now =>
    intro t ht
    exact h t ht
  | updateContent i st =>
    intro t ht
    exact h t ht

/-- After any operation that neither is an `updateTarget ... "pending"`
on the id nor an `addTarget` that could reuse it, every target row with
that id keeps a status other than `'pending'`. The invariant carries the
id below the AUTOINCREMENT counter so a later insert cannot recreate the
id as a fresh pending row. -/
def idRetired (s : DbState) (id : Nat) : Prop :=
  wfTargets s ∧ id < s.next_target_id ∧
    ∀ t ∈ s.crawl_targets, t.id = id → t.status ≠ "pending"

theorem idRetired_applyOp {s : DbState} {id : Nat} (h : idRetired s id) (op : DbOp)
    (hop : ¬ writesPendingTo id op) : idRetired (applyOp s op) id := by
  obtain ⟨hwf, hlt, hst⟩ := h
  refine ⟨wfTargets_applyOp hwf op, ?_, ?_⟩
  · cases op with
    | addTarget url =>
      simp only [applyOp, add_crawl_target]
      by_cases hmem : s.crawl_targets.any (fun t => t.url == url)
      · simpa [hmem]
      · simp only [if_neg hmem]
        exact Nat.lt_succ_of_lt hlt
    | updateTarget i st now => exact hlt
    | addContent tid url text now => exact hlt
    | updateContent i st => exact hlt
  · cases op with
    | addTarget url =>
      intro t ht hid
      simp only [applyOp, add_crawl_target] at ht
      by_cases hmem : s.crawl_targets.any (fun t => t.url == url)
      · exact hst t (by simpa [hmem] using ht) hid
      · simp only [if_neg hmem] at ht
        rcases List.mem_append.mp ht with hin | hin
        · exact hst t hin hid
        · simp only [List.mem_singleton] at hin
          subst hin
          simp only at hid
          omega
    | updateTarget i st now =>
      intro t ht hid
      simp only [applyOp, update_crawl_target_status, List.mem_map] at ht
      obtain ⟨u, hu, hut⟩ := ht
      by_cases hui : u.id = i
      · simp only [hui, beq_self_eq_true, if_true] at hut
        subst hut
        simp only at hid
        intro hpend
        simp only at hpend
        exact hop ⟨by omega, hpend⟩
      · simp [hui] at hut
        subst hut
        exact hst u hu hid
    | addContent tid url text now =>
      intro t ht hid
      exact hst t ht hid
    | updateContent i st =>
      intro t ht hid
      exact hst t ht hid

theorem idRetired_applyOps {s : DbState} {id : Nat} (h : idRetired s id)
    (ops : List DbOp) (hops : ∀ op ∈ ops, ¬ writesPendingTo id op) :
    idRetired (applyOps s ops) id := by
  induction ops generalizing s with
  | nil => exact h
  | cons op rest ih =>
    simp only [applyOps, List.foldl_cons]
    exact ih (idRetired_applyOp h op (hops op (List.mem_cons_self _ _)))
      (fun o ho => hops o (List.mem_cons_of_mem _ ho))

/-- A process managed by `ServiceManager` at the moment the shutdown
request arrives: whether `poll()` still reports it alive, and how long
after `terminate()` it would take to exit (`none` = it never exits). -/
structure ManagedService where
  running : Bool
  exit_delay : Option Nat
deriving Repr, DecidableEq

/-- The grace period of `p.wait(timeout=5)` in `ServiceManager.stop_all`. -/
def GRACE_PERIOD : Nat := 5

/-- What `stop_all` did to one service: when `terminate()` was sent and
when (if ever) `kill()` was forced. Times count from the shutdown
request. -/
structure StopEvent where
  terminate_time : Option Nat
  kill_time : Option Nat
deriving Repr, DecidableEq

/-- The timing of `ServiceManager.stop_all()` starting at time `t`: the
loop walks the services in order; a dead service is skipped; a live one
gets `terminate()`, then `p.wait(timeout=5)` blocks until the process
exits (at most the grace period) or times out, in which case `kill()` is
issued at the end of the grace period. Only then does the loop move to
the next service. -/
def stop_all_go (t : Nat) : List ManagedService → List StopEvent
  | [] => []
  | svc :: rest =>
      if svc.running then
        match svc.exit_delay with
        | some d =>
            if d ≤ GRACE_PERIOD then
              ⟨some t, none⟩ :: stop_all_go (t + d) rest
            else
              ⟨some t, some (t + GRACE_PERIOD)⟩ :: stop_all_go (t + GRACE_PERIOD) rest
        | none =>
            ⟨some t, some (t + GRACE_PERIOD)⟩ :: stop_all_go (t + GRACE_PERIOD) rest
      else ⟨none, none⟩ :: stop_all_go t rest

/-- `ServiceManager.stop_all()` run at the shutdown request (time 0). -/
def stop_all (svcs : List ManagedService) : List StopEvent :=
  stop_all_go 0 svcs

/-- The service exits on its own within the grace period after
`terminate()`. -/
def exitsWithinGrace (svc : ManagedService) : Prop :=
  ∃ d, svc.exit_delay = some d ∧ d ≤ GRACE_PERIOD

instance (svc : ManagedService) : Decidable (exitsWithinGrace svc) := by
  unfold exitsWithinGrace
  rcases svc with ⟨r, _ | d⟩
  · simp only [Option.some.injEq]
    exact Decidable.isFalse (by rintro ⟨d, h, _⟩; cases h)
  · by_cases h : d ≤ GRACE_PERIOD
    · exact Decidable.isTrue ⟨d, rfl, h⟩
    · refine Decidable.isFalse ?_
      rintro ⟨e, he, hle⟩
      cases he
      exact h hle

theorem stop_all_go_spec (svcs : List ManagedService) (t : Nat) :
    (stop_all_go t svcs).length = svcs.length ∧
      ∀ p ∈ svcs.zip (stop_all_go t svcs),
        (p.1.running = false → p.2 = ⟨none, none⟩) ∧
        (p.1.running = true →
          (∃ tt, p.2.terminate_time = some tt ∧ t ≤ tt ∧
            ((p.2.kill_time = none) ↔ exitsWithinGrace p.1) ∧
            ∀ k, p.2.kill_time = some k →
              k = tt + GRACE_PERIOD ∧ k ≤ t + GRACE_PERIOD * svcs.length)) := by
  induction svcs generalizing t with
  | nil => exact ⟨rfl, by simp⟩
  | cons svc rest ih =>
    by_cases hrun : svc.running
    · rcases hd : svc.exit_delay with _ | d
      · -- never exits: killed at t + GRACE_PERIOD
        have hgo : stop_all_go t (svc :: rest) =
            ⟨some t, some (t + GRACE_PERIOD)⟩ :: stop_all_go (t + GRACE_PERIOD) rest := by
          simp [stop_all_go, hrun, hd]
        obtain ⟨ihl, ihp⟩ := ih (t + GRACE_PERIOD)
        constructor
        · simp [hgo, ihl]
        · intro p hp
          rw [hgo] at hp
          rcases List.mem_cons.mp (by simpa [List.zip_cons_cons] using hp) with hph | hph
          · subst hph
            refine ⟨by simp [hrun], fun _ => ⟨t, rfl, Nat.le_refl t, ?_, ?_⟩⟩
            · simp only
              constructor
              · intro hk
                cases hk
              · rintro ⟨d, hdd, _⟩
                rw [hd] at hdd
                cases hdd
            · intro k hk
              simp only [Option.some.injEq] at hk
              subst hk
              refine ⟨rfl, ?_⟩
              have : GRACE_PERIOD * 1 ≤ GRACE_PERIOD * (rest.length + 1) := by
                exact Nat.mul_le_mul_left _ (by omega)
              simp only [List.length_cons]
              omega
          · obtain ⟨h1, h2⟩ := ihp p hph
            refine ⟨h1, fun hr => ?_⟩
            obtain ⟨tt, htt, hle, hiff, hkb⟩ := h2 hr
            refine ⟨tt, htt, by omega, hiff, fun k hk => ?_⟩
            obtain ⟨hk1, hk2⟩ := hkb k hk
            refine ⟨hk1, ?_⟩
            simp only [List.length_cons]
            have : GRACE_PERIOD * rest.length + GRACE_PERIOD = GRACE_PERIOD * (rest.length + 1) := by ring
            omega
      · by_cases hdg : d ≤ GRACE_PERIOD
        · -- exits within grace: no kill, loop resumes at t + d
          have hgo : stop_all_go t (svc :: rest) =
              ⟨some t, none⟩ :: stop_all_go (t + d) rest := by
            simp [stop_all_go, hrun, hd, hdg]
          obtain ⟨ihl, ihp⟩ := ih (t + d)
          constructor
          · simp [hgo, ihl]
          · intro p hp
            rw [hgo] at hp
            rcases List.mem_cons.mp (by simpa [List.zip_cons_cons] using hp) with hph | hph
            · subst hph
              refine ⟨by simp [hrun], fun _ => ⟨t, rfl, Nat.le_refl t, ?_, ?_⟩⟩
              · simp only
                constructor
                · intro _
                  exact ⟨d, hd, hdg⟩
                · intro _
                  trivial
              · intro k hk
                cases hk
            · obtain ⟨h1, h2⟩ := ihp p hph
              refine ⟨h1, fun hr => ?_⟩
              obtain ⟨tt, htt, hle, hiff, hkb⟩ := h2 hr
              refine ⟨tt, htt, by omega, hiff, fun k hk => ?_⟩
              obtain ⟨hk1, hk2⟩ := hkb k hk
              refine ⟨hk1, ?_⟩
              simp only [List.length_cons]
              have : GRACE_PERIOD * rest.length + GRACE_PERIOD = GRACE_PERIOD * (rest.length + 1) := by ring
              omega
        · -- exits too late: killed at t + GRACE_PERIOD
          have hgo : stop_all_go t (svc :: rest) =
              ⟨some t, some (t + GRACE_PERIOD)⟩ :: stop_all_go (t + GRACE_PERIOD) rest := by
            simp [stop_all_go, hrun, hd, hdg]
          obtain ⟨ihl, ihp⟩ := ih (t + GRACE_PERIOD)
          constructor
          · simp [hgo, ihl]
          · intro p hp
            rw [hgo] at hp
            rcases List.mem_cons.mp (by simpa [List.zip_cons_cons] using hp) with hph | hph
            · subst hph
              refine ⟨by simp [hrun], fun _ => ⟨t, rfl, Nat.le_refl t, ?_, ?_⟩⟩
              · simp only
                constructor
                · intro hk
                  cases hk
                · rintro ⟨e, hee, hle⟩
                  rw [hd] at hee
                  cases hee
                  exact absurd hle hdg
              · intro k hk
                simp only [Option.some.injEq] at hk
                subst hk
                refine ⟨rfl, ?_⟩
                simp only [List.length_cons]
                have : GRACE_PERIOD * 1 ≤ GRACE_PERIOD * (rest.length + 1) := by
                  exact Nat.mul_le_mul_left _ (by omega)
                omega
            · obtain ⟨h1, h2⟩ := ihp p hph
              refine ⟨h1, fun hr => ?_⟩
              obtain ⟨tt, htt, hle, hiff, hkb⟩ := h2 hr
              refine ⟨tt, htt, by omega, hiff, fun k hk => ?_⟩
              obtain ⟨hk1, hk2⟩ := hkb k hk
              refine ⟨hk1, ?_⟩
              simp only [List.length_cons]
              have : GRACE_PERIOD * rest.length + GRACE_PERIOD = GRACE_PERIOD * (rest.length + 1) := by ring
              omega
    · -- dead service: skipped, clock does not advance
      have hgo : stop_all_go t (svc :: rest) =
          ⟨none, none⟩ :: stop_all_go t rest := by
        simp [stop_all_go, hrun]
      obtain ⟨ihl, ihp⟩ := ih t
      constructor
      · simp [hgo, ihl]
      · intro p hp
        rw [hgo] at hp
        rcases List.mem_cons.mp (by simpa [List.zip_cons_cons] using hp) with hph | hph
        · subst hph
          refine ⟨fun _ => rfl, fun hr => absurd hr (by simpa using hrun)⟩
        · obtain ⟨h1, h2⟩ := ihp p hph
          refine ⟨h1, fun hr => ?_⟩
          obtain ⟨tt, htt, hle, hiff, hkb⟩ := h2 hr
          refine ⟨tt, htt, hle, hiff, fun k hk => ?_⟩
          obtain ⟨hk1, hk2⟩ := hkb k hk
          refine ⟨hk1, ?_⟩
          simp only [List.length_cons]
          have : GRACE_PERIOD * rest.length ≤ GRACE_PERIOD * (rest.length + 1) := by
            exact Nat.mul_le_mul_left _ (by omega)
          omega

theorem get_next_crawl_target_none_iff (s : DbState) :
    get_next_crawl_target s = none ↔ ∀ t ∈ s.crawl_targets, t.status ≠ "pending" := by
  unfold get_next_crawl_target
  rw [(selectMin_spec targetKey _).1, List.filter_eq_nil_iff]
  constructor
  · intro h t ht hst
    exact h t ht (by simp [hst])
  · intro h t ht hb
    exact h t ht (by simpa using hb)

theorem get_next_crawl_target_some (s : DbState) (t : CrawlTarget)
    (h : get_next_crawl_target s = some t) :
    t ∈ s.crawl_targets ∧ t.status = "pending" ∧
      ∀ u ∈ s.crawl_targets, u.status = "pending" → keyLe (targetKey t) (targetKey u) := by
  unfold get_next_crawl_target at h
  obtain ⟨hmem, hall⟩ := (selectMin_spec targetKey _).2 t h
  have hm := List.mem_filter.mp hmem
  refine ⟨hm.1, by simpa using hm.2, fun u hu hust => ?_⟩
  exact hall u (List.mem_filter.mpr ⟨hu, by simp [hust]⟩)

theorem claimNextContent_specLex_ok (s : DbState) :
    content_query_ok s (claimNextContent_specLex s) := by
  unfold claimNextContent_specLex
  rcases hres : selectMin (fun c => (0, c.creation_timestamp, c.id))
      (s.raw_content.filter (fun c => c.status == "pending")) with _ | c
  · rw [hres]
    have hnil := ((selectMin_spec _ _).1).mp hres
    rw [List.filter_eq_nil_iff] at hnil
    simp only [content_query_ok]
    intro u hu hust
    exact hnil u hu (by simp [hust])
  · rw [hres]
    obtain ⟨hmem, hall⟩ := (selectMin_spec _ _).2 c hres
    have hm := List.mem_filter.mp hmem
    simp only [content_query_ok]
    refine ⟨hm.1, by simpa using hm.2, fun u hu hust => ?_⟩
    have hk := hall u (List.mem_filter.mpr ⟨hu, by simp [hust]⟩)
    dsimp only [keyLe] at hk
    omega

theorem map_noop {α : Type} (f : α → α) (l : List α) (h : ∀ a ∈ l, f a = a) :
    l.map f = l := by
  induction l with
  | nil => rfl
  | cons x xs ih =>
    rw [List.map_cons, h x (List.mem_cons_self x xs),
      ih (fun a ha => h a (List.mem_cons_of_mem _ ha))]

theorem update_target_absent_noop (s : DbState) (id : Nat) (st : String) (now : Nat)
    (h : ∀ t ∈ s.crawl_targets, t.id ≠ id) :
    update_crawl_target_status s id st now = s := by
  unfold update_crawl_target_status
  rw [map_noop _ _ (fun t ht => by simp [h t ht])]

/-- Timestamp column of the first `crawl_targets` row carrying the id. -/
def tsOfTarget (s : DbState) (id : Nat) : Option (Option Nat) :=
  (s.crawl_targets.find? (fun t => t.id == id)).map (·.last_crawled_timestamp)

theorem target_update_find_ts (l : List CrawlTarget) (id : Nat) (st : String) (now : Nat)
    (h : ∃ t ∈ l, t.id = id) :
    (((l.map fun t =>
          if t.id == id then { t with status := st, last_crawled_timestamp := some now }
          else t).find? (fun t => t.id == id)).map (·.last_crawled_timestamp)) =
      some (some now) := by
  induction l with
  | nil =>
    obtain ⟨c, hc, _⟩ := h
    cases hc
  | cons x xs ih =>
    simp only [List.map_cons]
    by_cases hx : x.id = id
    · rw [List.find?_cons_of_pos _ (by simp [hx])]
      simp [hx]
    · rw [List.find?_cons_of_neg _ (by simp [hx])]
      obtain ⟨c, hc, hcid⟩ := h
      rcases List.mem_cons.mp hc with hh | hh
      · exact absurd (hh ▸ hcid) hx
      · exact ih ⟨c, hh, hcid⟩

theorem tsOfTarget_update_self (s : DbState) (id : Nat) (st : String) (now : Nat)
    (h : ∃ t ∈ s.crawl_targets, t.id = id) :
    tsOfTarget (update_crawl_target_status s id st now) id = some (some now) :=
  target_update_find_ts s.crawl_targets id st now h

theorem update_target_preserves_ids (s : DbState) (i : Nat) (st : String) (now : Nat)
    (id : Nat) (h : ∃ t ∈ s.crawl_targets, t.id = id) :
    ∃ t ∈ (update_crawl_target_status s i st now).crawl_targets, t.id = id := by
  obtain ⟨t, ht, hid⟩ := h
  unfold update_crawl_target_status
  refine ⟨if t.id == i then { t with status := st, last_crawled_timestamp := some now }
    else t, List.mem_map_of_mem _ ht, ?_⟩
  by_cases hti : t.id = i
  · rw [if_pos (by simp [hti])]
    exact hid
  · rw [if_neg (by simp [hti])]
    exact hid

/-- Modelled from the spec: `claimNextTarget` as the one indivisible
operation the spec describes — select the oldest pending target and
transition it to `'active'` in the same step, returning the row together
with the post-state. Stated only for comparison with the source's
`get_next_crawl_target`, which performs the selection alone. -/
def claimNextTarget_specAtomic (s : DbState) (now : Nat) :
    Option CrawlTarget × DbState :=
  match get_next_crawl_target s with
  | none => (none, s)
  | some t => (some t, update_crawl_target_status s t.id "active" now)

/-- The claim step as the repository implements it:
`IngestorService.run_sweep` first calls `get_next_crawl_target` — a
SELECT that returns a row and leaves the store untouched — and only
afterwards issues the separate `update_crawl_target_status(id,
'active')`. The pair records the returned row and the (unchanged)
post-state of the SELECT itself. -/
def claimNextTarget_impl (s : DbState) : Option CrawlTarget × DbState :=
  (get_next_crawl_target s, s)

def tgtC1 : CrawlTarget := ⟨1, "http://a.example", "pending", none⟩

def sC1 : DbState := ⟨[tgtC1], [], 2, 1⟩

/-- Claim C1, counterexample: `get_next_crawl_target` does not transition
the returned row to `'active'` within the same operation. On a store
with one pending target the implemented claim step returns the row with
its status still `'pending'` and an unchanged store, so a second caller
that interleaves before the ingestor's separate UPDATE receives the very
same row; under the atomic operation the spec describes, the second
claim would find nothing. -/
theorem claimNextTarget_not_atomic_at_sC1 :
    claimNextTarget_impl sC1 = (some tgtC1, sC1) ∧
      statusOfTarget sC1 1 = some "pending" ∧
      (claimNextTarget_impl (claimNextTarget_impl sC1).2).1 = some tgtC1 ∧
      statusOfTarget (claimNextTarget_specAtomic sC1 0).2 1 = some "active" ∧
      (claimNextTarget_specAtomic (claimNextTarget_specAtomic sC1 0).2 0).1 = none := by
  decide

/-- Claim C1 (amended): `claimNextTarget` as implemented
(`get_next_crawl_target`) is a read-only SELECT: it returns the oldest
pending target under the queue ordering — or `none`, not an error, when
no pending target exists — and changes no status at all; the `'active'`
transition is a separate, later `update_crawl_target_status` call in the
ingestor sweep, so the selection and the transition are not one
indivisible operation. -/
theorem claimNextTarget_reads_oldest_pending (s : DbState) :
    (claimNextTarget_impl s).2 = s ∧
      ((claimNextTarget_impl s).1 = none ↔ ∀ t ∈ s.crawl_targets, t.status ≠ "pending") ∧
      ∀ t, (claimNextTarget_impl s).1 = some t →
        t ∈ s.crawl_targets ∧ t.status = "pending" ∧
          ∀ u ∈ s.crawl_targets, u.status = "pending" → keyLe (targetKey t) (targetKey u) :=
  ⟨rfl, get_next_crawl_target_none_iff s, fun t h => get_next_crawl_target_some s t h⟩

def tgtC1b : CrawlTarget := ⟨2, "http://b.example", "pending", some 7⟩

def sC1w : DbState := ⟨[tgtC1b, tgtC1], [], 3, 1⟩

/-- Witness for the amended C1 theorem at a concrete store: the claim
step on `sC1w` returns `tgtC1` (NULL timestamp sorts first), which is a
stored pending row. -/
theorem claimNextTarget_reads_oldest_pending_witness :
    tgtC1 ∈ sC1w.crawl_targets ∧ tgtC1.status = "pending" := by
  have h := (claimNextTarget_reads_oldest_pending sC1w).2.2 tgtC1 (by decide)
  exact ⟨h.1, h.2.1⟩

/-- Claim C6 (amended): the target claim obeys the full FIFO order —
earliest `last_crawled_timestamp` with NULL first, ties broken by
ascending id — because its SQL orders by both columns; the content query
orders only by `creation_timestamp`, so all its results are pending rows
of minimal creation time, and the spec's id tie-break
(`claimNextContent_specLex`) is one permitted result of that query but
not the only one. -/
theorem queue_claim_ordering (s : DbState) :
    (∀ t, get_next_crawl_target s = some t →
        t ∈ s.crawl_targets ∧ t.status = "pending" ∧
          ∀ u ∈ s.crawl_targets, u.status = "pending" → keyLe (targetKey t) (targetKey u)) ∧
      content_query_ok s (claimNextContent_specLex s) :=
  ⟨fun t h => get_next_crawl_target_some s t h, claimNextContent_specLex_ok s⟩

def cTie1 : RawContent := ⟨1, none, "http://a.example", "alpha", "pending", 10⟩

def cTie2 : RawContent := ⟨2, none, "http://b.example", "beta", "pending", 10⟩

def sTie : DbState := ⟨[], [cTie1, cTie2], 1, 3⟩

/-- Claim C6, counterexample: the content query
(`ORDER BY creation_timestamp ASC LIMIT 1`, no id column) permits
returning the row with id 2 even though the row with id 1 ties on
`creation_timestamp` and has the smaller id — ascending-id tie-breaking
is not guaranteed by the query the source issues. -/
theorem content_tie_not_broken_by_id :
    content_query_ok sTie (some cTie2) ∧
      cTie1.creation_timestamp = cTie2.creation_timestamp ∧
      cTie1.id < cTie2.id := by
  decide

/-- Witness for the C6 theorem at a concrete store: on `sC1w` the target
claim returns the NULL-timestamped row and its key precedes the other
pending row's key. -/
theorem queue_claim_ordering_witness :
    tgtC1 ∈ sC1w.crawl_targets ∧ keyLe (targetKey tgtC1) (targetKey tgtC1b) := by
  have h := (queue_claim_ordering sC1w).1 tgtC1 (by decide)
  exact ⟨h.1, h.2.2 tgtC1b (by decide) (by decide)⟩

theorem update_target_all_id (s : DbState) (id : Nat) (st : String) (now : Nat) :
    ∀ t ∈ (update_crawl_target_status s id st now).crawl_targets,
      t.id = id → t.status = st := by
  intro t ht hid
  simp only [update_crawl_target_status, List.mem_map] at ht
  obtain ⟨u, hu, hut⟩ := ht
  by_cases hui : u.id = id
  · rw [if_pos (by simp [hui])] at hut
    subst hut
    rfl
  · rw [if_neg (by simp [hui])] at hut
    subst hut
    exact absurd hid hui

def tFailC5 : CrawlTarget := ⟨1, "http://a.example", "failed", some 3⟩

def sFailC5 : DbState := ⟨[tFailC5], [], 2, 1⟩

/-- Claim C5, counterexample: the store itself does not make `'failed'`
terminal — `update_crawl_target_status` writes any status it is given,
so writing `'pending'` onto a failed target returns it to the pending
pool and the very next `get_next_crawl_target` claims that id again. -/
theorem store_update_returns_failed_to_pending :
    statusOfTarget sFailC5 1 = some "failed" ∧
      statusOfTarget (update_crawl_target_status sFailC5 1 "pending" 4) 1 = some "pending" ∧
      get_next_crawl_target (update_crawl_target_status sFailC5 1 "pending" 4) =
        some ⟨1, "http://a.example", "pending", some 4⟩ := by
  decide

/-- Claim C5 (amended): the store's status writes are unrestricted, so
terminality holds only for operation sequences that never write
`'pending'` onto the id — which is every sequence the services issue
(they write only `'active'`, `'completed'`, `'failed'`, `'processed'`).
Under that restriction, after `update_crawl_target_status(id, 'failed')`
on a stored id, no later `get_next_crawl_target` ever returns that id. -/
theorem failed_target_never_reclaimed (s : DbState) (id now : Nat)
    (hwf : wfTargets s) (hex : ∃ t ∈ s.crawl_targets, t.id = id)
    (ops : List DbOp) (hops : ∀ op ∈ ops, ¬ writesPendingTo id op) :
    ¬ ∃ t, get_next_crawl_target
        (applyOps (update_crawl_target_status s id "failed" now) ops) = some t ∧
          t.id = id := by
  rintro ⟨t, hget, hid⟩
  have hinit : idRetired (update_crawl_target_status s id "failed" now) id := by
    refine ⟨wfTargets_applyOp hwf (DbOp.updateTarget id "failed" now), ?_, ?_⟩
    · obtain ⟨u, hu, huid⟩ := hex
      have h1 := hwf u hu
      show id < s.next_target_id
      omega
    · intro u hu huid
      have h2 := update_target_all_id s id "failed" now u hu huid
      rw [h2]
      decide
  have hfin := idRetired_applyOps hinit ops hops
  obtain ⟨hmem, hpend, _⟩ := get_next_crawl_target_some _ t hget
  exact hfin.2.2 t hmem hid hpend

def tgtC5w : CrawlTarget := ⟨1, "http://a.example", "pending", none⟩

def sC5w : DbState := ⟨[tgtC5w], [], 2, 1⟩

/-- Witness for the amended C5 theorem: fail target 1 in a concrete
store, then run a service-style operation sequence (a fresh enqueue and
a content write); no claim thereafter returns id 1. -/
theorem failed_target_never_reclaimed_witness :
    ¬ ∃ t, get_next_crawl_target
        (applyOps (update_crawl_target_status sC5w 1 "failed" 5)
          [DbOp.addTarget "http://b.example", DbOp.updateContent 1 "processed"]) =
            some t ∧ t.id = 1 :=
  failed_target_never_reclaimed sC5w 1 5 (by decide) ⟨tgtC5w, by decide, rfl⟩
    [DbOp.addTarget "http://b.example", DbOp.updateContent 1 "processed"] (by decide)

def sEmptyDb : DbState := ⟨[], [], 1, 1⟩

/-- Claim C7, counterexample: `update_crawl_target_status` on an id
absent from the store does not fail with a `NotFound` error — the UPDATE
matches zero rows, the call returns success, and the store is left
exactly as it was. -/
theorem setTargetStatus_absent_is_silent :
    update_crawl_target_status_result sEmptyDb 5 "failed" 7 = Except.ok () ∧
      update_crawl_target_status sEmptyDb 5 "failed" 7 = sEmptyDb :=
  ⟨rfl, rfl⟩

/-- Claim C7 (amended): `setTargetStatus(id, status)` sets the status and
refreshes `last_crawled_timestamp` when the id exists; when the id is
absent the call is a silent no-op that still returns success — it never
raises a `NotFound` error. -/
theorem setTargetStatus_updates_or_noop (s : DbState) (id : Nat) (st : String) (now : Nat) :
    update_crawl_target_status_result s id st now = Except.ok () ∧
      ((∃ t ∈ s.crawl_targets, t.id = id) →
        statusOfTarget (update_crawl_target_status s id st now) id = some st ∧
          tsOfTarget (update_crawl_target_status s id st now) id = some (some now)) ∧
      ((∀ t ∈ s.crawl_targets, t.id ≠ id) → update_crawl_target_status s id st now = s) :=
  ⟨rfl,
    fun h => ⟨statusOfTarget_update_self s id st now h, tsOfTarget_update_self s id st now h⟩,
    update_target_absent_noop s id st now⟩

/-- Witness for the amended C7 theorem at a concrete store: updating a
present id writes the status and refreshes the timestamp. -/
theorem setTargetStatus_updates_witness :
    statusOfTarget (update_crawl_target_status sC1 1 "active" 9) 1 = some "active" ∧
      tsOfTarget (update_crawl_target_status sC1 1 "active" 9) 1 = some (some 9) :=
  (setTargetStatus_updates_or_noop sC1 1 "active" 9).2.1 ⟨tgtC1, by decide, rfl⟩

theorem add_crawl_target_present (s : DbState) (url : String)
    (h : s.crawl_targets.any (fun t => t.url == url)) :
    add_crawl_target s url = s := by
  unfold add_crawl_target
  rw [if_pos h]

def db0C8 : DbState := ⟨[], [], 1, 1⟩

/-- Claim C8, counterexample: `add_crawl_target` stores the url (id 1 in
an empty store) but its Python body has no `return` — the second call
with the identical url evaluates to `None`, not to the existing target's
id. -/
theorem enqueueTarget_returns_no_id :
    (add_crawl_target db0C8 "http://a.example").crawl_targets =
        [⟨1, "http://a.example", "pending", none⟩] ∧
      add_crawl_target_ret (add_crawl_target db0C8 "http://a.example") "http://a.example" =
        none ∧
      add_crawl_target_ret (add_crawl_target db0C8 "http://a.example") "http://a.example" ≠
        some 1 := by
  decide

/-- Claim C8 (amended): `enqueueTarget(url)` is an idempotent
insert-or-ignore keyed on `url` — calling it twice with the identical
url leaves exactly one stored target with that url and raises no
duplicate error — but it returns no id at all (Python `None`), on the
first call and the second alike. -/
theorem enqueueTarget_insert_or_ignore (s : DbState) (url : String)
    (hcount : (s.crawl_targets.filter (fun t => t.url == url)).length ≤ 1) :
    add_crawl_target (add_crawl_target s url) url = add_crawl_target s url ∧
      ((add_crawl_target s url).crawl_targets.filter (fun t => t.url == url)).length = 1 ∧
      add_crawl_target_ret (add_crawl_target s url) url = none := by
  by_cases hany : s.crawl_targets.any (fun t => t.url == url)
  · have hnoop : add_crawl_target s url = s := add_crawl_target_present s url hany
    refine ⟨by rw [hnoop]; exact hnoop, ?_, rfl⟩
    obtain ⟨x, hx, hxp⟩ := List.any_eq_true.mp hany
    have hmem : x ∈ s.crawl_targets.filter (fun t => t.url == url) :=
      List.mem_filter.mpr ⟨hx, hxp⟩
    have hpos : 0 < (s.crawl_targets.filter (fun t => t.url == url)).length :=
      List.length_pos.mpr (List.ne_nil_of_mem hmem)
    rw [hnoop]
    omega
  · have hadd : add_crawl_target s url =
        { s with
            crawl_targets :=
              s.crawl_targets ++ [⟨s.next_target_id, url, "pending", none⟩],
            next_target_id := s.next_target_id + 1 } := by
      unfold add_crawl_target
      rw [if_neg hany]
    have hfilter_nil : s.crawl_targets.filter (fun t => t.url == url) = [] := by
      rw [List.filter_eq_nil_iff]
      intro a ha hp
      exact hany (List.any_eq_true.mpr ⟨a, ha, hp⟩)
    have hany2 : (add_crawl_target s url).crawl_targets.any (fun t => t.url == url) := by
      rw [hadd]
      exact List.any_eq_true.mpr
        ⟨⟨s.next_target_id, url, "pending", none⟩, by simp, by simp⟩
    refine ⟨add_crawl_target_present _ url hany2, ?_, rfl⟩
    rw [hadd]
    simp only [List.filter_append, hfilter_nil, List.nil_append]
    simp

/-- Witness for the amended C8 theorem: enqueue the same url twice into
an empty store — the second call changes nothing and exactly one row
with the url is stored. -/
theorem enqueueTarget_insert_or_ignore_witness :
    add_crawl_target (add_crawl_target db0C8 "http://a.example") "http://a.example" =
        add_crawl_target db0C8 "http://a.example" ∧
      ((add_crawl_target db0C8 "http://a.example").crawl_targets.filter
          (fun t => t.url == "http://a.example")).length = 1 := by
  have h := enqueueTarget_insert_or_ignore db0C8 "http://a.example" (by decide)
  exact ⟨h.1, h.2.1⟩

/-- Claim C2 (confirmed): in both poll loops an exceptional handler
outcome on a claimed item is converted, inside that same sweep, into a
`'failed'` status write on the item — the processor's `try/except`
clause writes `'failed'` on any exception from `process_chunk`, and the
ingestor's `fetch_url` catches every exception internally so the sweep
marks the target `'failed'`. The final conjunct records that every
possible handler outcome ends the sweep with the item `'processed'` or
`'failed'` — the sweep itself is total, so no exception escapes the
iteration. -/
theorem stage_loops_convert_exceptions_to_failed
    (s : DbState) (kb : KBTable) (c : RawContent)
    (handler : RawContent → KBTable → Except String (Bool × KBTable)) (e : String)
    (hhe : handler c kb = Except.error e)
    (hc : ∃ r ∈ s.raw_content, r.id = c.id)
    (s2 : DbState) (t : CrawlTarget) (e2 : String) (now : Nat)
    (ht : ∃ r ∈ s2.crawl_targets, r.id = t.id) :
    statusOfContent (processor_run_sweep s kb (some c) handler).1 c.id = some "failed" ∧
      statusOfTarget (ingestor_run_sweep s2 (some t) (Except.error e2) now) t.id =
        some "failed" ∧
      ∀ h2 : RawContent → KBTable → Except String (Bool × KBTable),
        statusOfContent (processor_run_sweep s kb (some c) h2).1 c.id = some "processed" ∨
          statusOfContent (processor_run_sweep s kb (some c) h2).1 c.id = some "failed" := by
  refine ⟨?_, ?_, ?_⟩
  · simp only [processor_run_sweep, hhe]
    exact statusOfContent_update_self s c.id "failed" hc
  · simp only [ingestor_run_sweep, fetch_url]
    exact statusOfTarget_update_self _ t.id "failed" now
      (update_target_preserves_ids s2 t.id "active" now t.id ht)
  · intro h2
    rcases hh : h2 c kb with e' | ⟨b, kb'⟩
    · right
      simp only [processor_run_sweep, hh]
      exact statusOfContent_update_self s c.id "failed" hc
    · cases b
      · right
        simp only [processor_run_sweep, hh]
        exact statusOfContent_update_self s c.id "failed" hc
      · left
        simp only [processor_run_sweep, hh]
        exact statusOfContent_update_self s c.id "processed" hc

def cC2 : RawContent := ⟨1, none, "http://a.example", "text", "pending", 0⟩

def sC2 : DbState := ⟨[], [cC2], 1, 2⟩

def failingHandler : RawContent → KBTable → Except String (Bool × KBTable) :=
  fun _ _ => Except.error "boom"

/-- Witness for the C2 theorem: a handler raising on a concrete claimed
item and a failing fetch both end the sweep with the item marked
`'failed'`. -/
theorem stage_loops_convert_exceptions_to_failed_witness :
    statusOfContent (processor_run_sweep sC2 ⟨[]⟩ (some cC2) failingHandler).1 1 =
        some "failed" ∧
      statusOfTarget (ingestor_run_sweep sC5w (some tgtC5w) (Except.error "net") 3) 1 =
        some "failed" := by
  have h := stage_loops_convert_exceptions_to_failed sC2 ⟨[]⟩ cC2 failingHandler "boom" rfl
    ⟨cC2, by decide, rfl⟩ sC5w tgtC5w "net" 3 ⟨tgtC5w, by decide, rfl⟩
  exact ⟨h.1, h.2.1⟩

/-- Claim C3 (confirmed): with a non-empty store
(`search1` finds a nearest neighbour with a non-empty vector),
`check_for_contradiction` — the Reject outcome of admission — returns
`true` exactly when the cosine similarity to that single nearest
neighbour strictly exceeds the configured `annealing_threshold`; at
exact equality it returns `false` (the vector is accepted). The default
threshold in `DEFAULT_CONFIG` is `0.95`. -/
theorem admission_rejects_iff_above_threshold
    (env : Collab) (kb : KBTable) (v : List ℚ) (nearest : KnowledgeRec)
    (hs : env.search1 kb v = some nearest) (hv : nearest.vector ≠ []) :
    (check_for_contradiction env kb v = true ↔
        env.cosine v nearest.vector > env.annealing_threshold) ∧
      (env.cosine v nearest.vector = env.annealing_threshold →
        check_for_contradiction env kb v = false) ∧
      default_annealing_threshold = 95 / 100 := by
  have hunf : check_for_contradiction env kb v =
      decide (env.cosine v nearest.vector > env.annealing_threshold) := by
    simp only [check_for_contradiction, hs, if_neg hv]
  refine ⟨?_, ?_, rfl⟩
  · rw [hunf]
    simp [decide_eq_true_eq]
  · intro heq
    rw [hunf, heq]
    exact decide_eq_false (lt_irrefl _)

def recC3 : KnowledgeRec := ⟨[1], "t", "http://a.example", "Example", "e"⟩

def envC3 : Collab :=
  { brain := fun _ _ => none
    encode := fun _ => [1]
    search1 := fun _ _ => some recC3
    cosine := fun _ _ => 95 / 100
    annealing_threshold := 95 / 100 }

/-- Witness for the C3 theorem: a concrete collaborator whose nearest
neighbour sits exactly at the threshold — the vector is accepted. -/
theorem admission_rejects_iff_above_threshold_witness :
    check_for_contradiction envC3 ⟨[recC3]⟩ [1] = false := by
  have h := admission_rejects_iff_above_threshold envC3 ⟨[recC3]⟩ [1] recC3 rfl (by decide)
  exact h.2.1 rfl

/-- Claim C4 (confirmed): when the brain structures the chunk and
admission rejects its embedding as a near-duplicate, `process_chunk`
returns handler success with the knowledge table untouched — no record
inserted — and the sweep marks the originating content item
`'processed'`, never `'failed'`; conversely the knowledge table changes
only when admission accepted the vector. -/
theorem admission_reject_keeps_item_processed
    (env : Collab) (s : DbState) (kb : KBTable) (c : RawContent) (pd0 : ProcessedData)
    (hb : env.brain c.raw_text c.url = some pd0)
    (hid : ∃ r ∈ s.raw_content, r.id = c.id) :
    (check_for_contradiction env kb (env.encode pd0.summary) = true →
        process_chunk env kb c = (true, kb) ∧
          statusOfContent
              (processor_run_sweep s kb (some c) (process_chunk_handler env)).1 c.id =
            some "processed" ∧
          (processor_run_sweep s kb (some c) (process_chunk_handler env)).2 = kb) ∧
      ((process_chunk env kb c).2 ≠ kb →
        check_for_contradiction env kb (env.encode pd0.summary) = false) := by
  have hpc : check_for_contradiction env kb (env.encode pd0.summary) = true →
      process_chunk env kb c = (true, kb) := by
    intro hcheck
    unfold process_chunk
    rw [hb]
    simp only
    rw [if_pos hcheck]
  refine ⟨fun hcheck => ?_, fun hne => ?_⟩
  · have h1 := hpc hcheck
    refine ⟨h1, ?_, ?_⟩
    · simp only [processor_run_sweep, process_chunk_handler, h1]
      exact statusOfContent_update_self s c.id "processed" hid
    · simp only [processor_run_sweep, process_chunk_handler, h1]
  · by_cases hcheck : check_for_contradiction env kb (env.encode pd0.summary) = true
    · exact absurd (congrArg Prod.snd (hpc hcheck)) hne
    · exact Bool.eq_false_iff.mpr hcheck

def pdC4 : ProcessedData := ⟨"Example", "summary", ["a", "b"], "http://x.example"⟩

def recC4 : KnowledgeRec := ⟨[1], "t", "u", "ti", "e"⟩

def envC4 : Collab :=
  { brain := fun _ _ => some pdC4
    encode := fun _ => [1]
    search1 := fun _ _ => some recC4
    cosine := fun _ _ => 1
    annealing_threshold := 0 }

def kbC4 : KBTable := ⟨[recC4]⟩

/-- Witness for the C4 theorem: a concrete rejected chunk — similarity 1
against threshold 0 — leaves the knowledge table unchanged and the item
`'processed'`. -/
theorem admission_reject_keeps_item_processed_witness :
    process_chunk envC4 kbC4 cC2 = (true, kbC4) ∧
      statusOfContent
          (processor_run_sweep sC2 kbC4 (some cC2) (process_chunk_handler envC4)).1 1 =
        some "processed" := by
  have h := (admission_reject_keeps_item_processed envC4 sC2 kbC4 cC2 pdC4 rfl
    ⟨cC2, by decide, rfl⟩).1 (by decide)
  exact ⟨h.1, h.2.1⟩

def hungSvc : ManagedService := ⟨true, none⟩

/-- Claim C9, counterexample: `stop_all` handles the services
sequentially, so with two services that never exit the second one is
terminated only after the first one's grace period has elapsed and is
force-killed two grace periods (10 time units) after the shutdown
request — not within one grace period of it. -/
theorem second_service_killed_after_two_grace_periods :
    stop_all [hungSvc, hungSvc] =
        [⟨some 0, some GRACE_PERIOD⟩, ⟨some GRACE_PERIOD, some (2 * GRACE_PERIOD)⟩] ∧
      ¬ (2 * GRACE_PERIOD ≤ GRACE_PERIOD) := by
  decide

/-- Claim C9 (amended): on shutdown every still-running service receives
a graceful `terminate` and is waited on for at most the grace period; a
service that does not exit within the grace period is force-killed
exactly one grace period after its own `terminate` — but, because the
loop is sequential, the bound relative to the shutdown request is the
grace period times the number of services, not a single grace period. -/
theorem stop_all_graceful_then_kill (svcs : List ManagedService) :
    (stop_all svcs).length = svcs.length ∧
      ∀ p ∈ svcs.zip (stop_all svcs),
        (p.1.running = false → p.2 = ⟨none, none⟩) ∧
        (p.1.running = true →
          ∃ tt, p.2.terminate_time = some tt ∧
            ((p.2.kill_time = none) ↔ exitsWithinGrace p.1) ∧
            ∀ k, p.2.kill_time = some k →
              k = tt + GRACE_PERIOD ∧ k ≤ GRACE_PERIOD * svcs.length) := by
  obtain ⟨hl, hp⟩ := stop_all_go_spec svcs 0
  refine ⟨hl, fun p hm => ?_⟩
  obtain ⟨h1, h2⟩ := hp p hm
  refine ⟨h1, fun hr => ?_⟩
  obtain ⟨tt, htt, _, hiff, hkb⟩ := h2 hr
  refine ⟨tt, htt, hiff, fun k hk => ?_⟩
  obtain ⟨hk1, hk2⟩ := hkb k hk
  exact ⟨hk1, by omega⟩

/-- Witness for the amended C9 theorem: in the two-hung-service run the
second service's kill happens one grace period after its terminate and
within two grace periods of the shutdown request. -/
theorem stop_all_graceful_then_kill_witness :
    (10 : Nat) = 5 + GRACE_PERIOD ∧ (10 : Nat) ≤ GRACE_PERIOD * 2 := by
  have h := (stop_all_graceful_then_kill [hungSvc, hungSvc]).2
    (hungSvc, ⟨some 5, some 10⟩) (by decide)
  obtain ⟨tt, htt, _, hkb⟩ := h.2 rfl
  obtain ⟨hk1, hk2⟩ := hkb 10 rfl
  have htt5 : tt = 5 := by simpa using htt.symm
  constructor
  · rw [htt5] at hk1
    exact hk1
  · simpa using hk2

/-- Claim C10 (confirmed): every construction of the KnowledgeBase —
`initialize_components` runs it at every start of the ingestor,
processor or API service — drops whatever `knowledge` table existed,
discarding all previously stored records, and recreates it seeded with
exactly one sample record whose text is `"This is a test chunk."`; the
result does not depend on the prior table at all. -/
theorem knowledge_base_construction_resets_store (env : Collab) (prior : Option KBTable) :
    init_components_kb env prior =
        ⟨[⟨env.encode "test", "This is a test chunk.", "http://example.com",
          "Example", "example, test"⟩]⟩ ∧
      (init_components_kb env prior).records.length = 1 ∧
      (∀ r ∈ (init_components_kb env prior).records, r.text = "This is a test chunk.") ∧
      init_components_kb env prior = init_components_kb env none := by
  refine ⟨rfl, rfl, ?_, rfl⟩
  intro r hr
  simp only [init_components_kb, knowledgeBase_construct, init_kb,
    List.mem_singleton] at hr
  rw [hr]

/-- Witness for the C10 theorem: constructing over a concrete non-empty
prior table leaves exactly the one seeded record. -/
theorem knowledge_base_construction_resets_store_witness :
    (init_components_kb envC3 (some kbC4)).records.length = 1 :=
  (knowledge_base_construction_resets_store envC3 (some kbC4)).2.1

end Aethelred
